import Mathlib

/-!
# SvcWatchDog — shallow embedding and verification

This file embeds the claim-relevant parts of the SvcWatchDog repository
(a Windows-service supervisor with an asynchronous logger, a JSON
configuration layer with HMAC protection, and small crypto helpers)
as executable Lean definitions, and proves or refutes the frozen claims
about them.

Strings are modelled as `List Char`; machine integers as `Nat`/`Int`
with explicit bounds where overflow matters.  The SHA-256 compression
function itself comes from the external PicoSHA2 library (not part of
this repository's sources), so it is kept abstract: definitions that
need it take it as an explicit parameter together with the library's
contract that its digests are 32 bytes long.
-/

namespace SWD

/-! ## SimpleTools.cpp: Split

`Split(str, delimiter)` repeatedly takes the substring up to the next
delimiter and finally pushes the remaining tail, so it always returns at
least one token and `Split("") = [""]`. -/

def Split : List Char → Char → List (List Char)
  | [], _ => [[]]
  | c :: rest, d =>
    if c = d then [] :: Split rest d
    else
      match Split rest d with
      | t :: ts => (c :: t) :: ts
      | [] => [[c]]

/-! ## JSON data model

The repository uses `nlohmann::json`, which stores objects as key-sorted
`std::map`s and therefore serialises (`dump`) with sorted keys.  We model
a JSON value with objects as association lists holding the map's
iteration order: lookups return the first binding, updates replace an
existing binding in place or insert at the sorted position exactly as
the map does, and `dump` emits fields in stored order.  JSON numbers are
modelled as integers; the configuration files the claims are about use
only integers, booleans, strings, arrays and objects (floating point is
out of scope of the shallow embedding). -/

inductive Json where
  | null : Json
  | bool (b : Bool) : Json
  | num (n : Int) : Json
  | str (s : List Char) : Json
  | arr (elems : List Json) : Json
  | obj (fields : List (List Char × Json)) : Json

namespace Json

/-- `json::contains(key)`: true only on objects that have the key. -/
def contains : Json → List Char → Bool
  | obj fields, k => fields.any (fun kv => kv.1 = k)
  | _, _ => false

/-- `operator[](key)` used after a `contains` check: first binding of the key. -/
def get : Json → List Char → Option Json
  | obj fields, k =>
    match fields.find? (fun kv => kv.1 = k) with
    | some kv => some kv.2
    | none => none
  | _, _ => none

/-- `std::string` `operator<`: lexicographic byte comparison (the order of
the `std::map` inside `nlohmann::json` objects). -/
def lexLt : List Char → List Char → Bool
  | [], [] => false
  | [], _ :: _ => true
  | _ :: _, [] => false
  | a :: as, b :: bs => if a < b then true else if b < a then false else lexLt as bs

/-- `std::map::operator[]` followed by assignment: replace the value of an
existing key or insert the new binding at its sorted position (object
fields model the map's iteration order, which is key-sorted). -/
def setFields (k : List Char) (v : Json) : List (List Char × Json) → List (List Char × Json)
  | [] => [(k, v)]
  | kv :: rest =>
    if lexLt k kv.1 then (k, v) :: kv :: rest
    else if kv.1 = k then (k, v) :: rest
    else kv :: setFields k v rest

/-- `operator[](key) = value` on an object (the only shape the embedded code
mutates; `nlohmann` would also turn `null` into a fresh object). -/
def setKey : Json → List Char → Json → Json
  | obj fields, k, v => obj (setFields k v fields)
  | null, k, v => obj [(k, v)]
  | j, _, _ => j

def isObj : Json → Bool
  | obj _ => true
  | _ => false

end Json

/-! ## JsonConfig.cpp: FindKey and the fault-tolerant getters -/

/-- `nlohmann`'s non-const `operator[](key)`, the call each hop of
`FindKey` makes: it returns the mapped value and — when the key is
missing on an object — **inserts** a `null` binding (the mutation the
`contains` guard in `FindKey` exists to avoid; on non-objects it throws,
which `contains` also rules out). -/
def getOrInsert (doc : Json) (k : List Char) : Json × Json :=
  match doc with
  | Json.obj fields =>
    match fields.find? (fun kv => kv.1 = k) with
    | some kv => (kv.2, doc)
    | none => (Json.null, Json.obj (Json.setFields k Json.null fields))
  | _ => (Json.null, doc)

/-- `JsonConfig::FindKey`: split `path` on dots, append `key` when non-empty,
then walk the document hop by hop, failing when a hop is missing. -/
def FindKey (doc : Json) (path : List Char) (key : List Char) : Option Json :=
  let tokens := Split path '.'
  let tokens := if key ≠ [] then tokens ++ [key] else tokens
  tokens.foldlM (fun current token =>
    if current.contains token then current.get token else none) doc

/-- `json::get<std::string>()`: succeeds exactly on strings. -/
def coerceString : Json → Option (List Char)
  | Json.str s => some s
  | _ => none

/-- `json::get<bool>()`: succeeds exactly on booleans. -/
def coerceBool : Json → Option Bool
  | Json.bool b => some b
  | _ => none

/-- `json::get<T>()` for an integral `T`: succeeds exactly on numbers
(in this embedding, integers). -/
def coerceNum : Json → Option Int
  | Json.num n => some n
  | _ => none

/-- `json::get<std::vector<std::string>>()`: an array whose elements are
all strings. -/
def coerceStringVector : Json → Option (List (List Char))
  | Json.arr elems => elems.mapM coerceString
  | _ => none

/-- `JsonConfig::GetParameter<T>`: find the key, coerce, and fall back to
the default on a missing hop or on any conversion exception. -/
def GetParameter {α : Type} (coerce : Json → Option α)
    (doc : Json) (path key : List Char) (defaultValue : α) : α :=
  match FindKey doc path key with
  | some parameter =>
    match coerce parameter with
    | some v => v
    | none => defaultValue
  | none => defaultValue

def GetString (doc : Json) (path key defaultValue : List Char) : List Char :=
  GetParameter coerceString doc path key defaultValue

def GetBool (doc : Json) (path key : List Char) (defaultValue : Bool) : Bool :=
  GetParameter coerceBool doc path key defaultValue

def GetStringVector (doc : Json) (path key : List Char)
    (defaultValue : List (List Char)) : List (List Char) :=
  GetParameter coerceStringVector doc path key defaultValue

/-- A decimal digit. -/
def isDigitChar (c : Char) : Bool := '0' ≤ c ∧ c ≤ '9'

/-- C whitespace (`isspace` in the C locale), skipped by `istream >>` and
by a blank in a `scanf` format. -/
def isSpaceChar (c : Char) : Bool :=
  c = ' ' ∨ c = '\t' ∨ c = '\n' ∨ c = '\x0b' ∨ c = '\x0c' ∨ c = '\r'

/-- `istringstream >> value` followed by `!fail() && eof()`: after the
leading whitespace the stream skips, the rest of the string must be a
decimal integer — an optional sign and at least one digit, with nothing
(not even whitespace) after it, or `eof()` is false.  The embedding uses
unbounded `Int` where the C++ template parameter is a fixed-width type
whose overflow would set `failbit`. -/
def parseDecInt (s : List Char) : Option Int :=
  match s.dropWhile isSpaceChar with
  | [] => none
  | '-' :: rest =>
    if rest ≠ [] ∧ rest.all isDigitChar then
      some (-(rest.foldl (fun a c => a * 10 + (c.toNat - '0'.toNat)) 0 : Nat))
    else none
  | '+' :: rest =>
    if rest ≠ [] ∧ rest.all isDigitChar then
      some ((rest.foldl (fun a c => a * 10 + (c.toNat - '0'.toNat)) 0 : Nat))
    else none
  | body =>
    if body.all isDigitChar then
      some ((body.foldl (fun a c => a * 10 + (c.toNat - '0'.toNat)) 0 : Nat))
    else none

def hexDigitVal (c : Char) : Option Nat :=
  if '0' ≤ c ∧ c ≤ '9' then some (c.toNat - '0'.toNat)
  else if 'a' ≤ c ∧ c ≤ 'f' then some (c.toNat - 'a'.toNat + 10)
  else if 'A' ≤ c ∧ c ≤ 'F' then some (c.toNat - 'A'.toNat + 10)
  else none

/-- `sscanf(s, "%llX %c", …) == 1` for a string already known to start
with `0x`/`0X`: hex digits after the prefix, then at most trailing
whitespace (the format's blank skips it and `%c` then fails at end of
input, leaving exactly one conversion); any other trailing character is
captured by `%c` and rejects.  The value wraps at 64 bits; the code
deliberately skips the overflow-into-`T` check. -/
def parseHexU64 (s : List Char) : Option Nat :=
  let body :=
    match s with
    | '0' :: 'x' :: rest => rest
    | '0' :: 'X' :: rest => rest
    | rest => rest
  let digits := body.takeWhile (fun c => (hexDigitVal c).isSome)
  let rest := body.drop digits.length
  if digits ≠ [] ∧ rest.all isSpaceChar then
    some ((digits.foldl (fun a c => a * 16 + (hexDigitVal c).getD 0) 0) % 2 ^ 64)
  else none

/-- Does the string start with `0x` or `0X` (`rfind("0x", 0) == 0`)? -/
def hasHexMark : List Char → Bool
  | '0' :: 'x' :: _ => true
  | '0' :: 'X' :: _ => true
  | _ => false

/-- `JsonConfig::GetNumber<T>` (integral instantiations): key missing →
default; numeric value → the number; string value → hex or decimal
parse; anything else → default. -/
def GetNumber (doc : Json) (path key : List Char) (defaultValue : Int) : Int :=
  match FindKey doc path key with
  | none => defaultValue
  | some parameter =>
    match coerceNum parameter with
    | some n => n
    | none =>
      match coerceString parameter with
      | none => defaultValue
      | some s =>
        if hasHexMark s then
          match parseHexU64 s with
          | some v => (v : Int)
          | none => defaultValue
        else
          match parseDecInt s with
          | some v => v
          | none => defaultValue

/-- `JsonConfig::GetJson(path)`: the whole document for the empty path,
otherwise `FindKey(path, "")`. -/
def GetJson (doc : Json) (path : List Char) : Option Json :=
  if path = [] then some doc else FindKey doc path []

/-- Is the terminal value coercible to a number in `GetNumber`'s sense:
either a JSON number, or a string holding a hex (`0x…`) or plain decimal
encoding (this mirrors the spec's description of `get_number`)? -/
def numberCoercible (j : Json) : Bool :=
  (coerceNum j).isSome ||
    (match coerceString j with
     | some s => if hasHexMark s then (parseHexU64 s).isSome else (parseDecInt s).isSome
     | none => false)

def cfgDocW : Json :=
  Json.obj [("a".toList, Json.num 3), ("s".toList, Json.str "hi".toList)]

/-! ## SimpleCrypto.cpp: HmacSha256

The SHA-256 primitive comes from the external PicoSHA2 header (not part
of this repository's sources), so it is an explicit parameter `sha256`;
PicoSHA2's contract is that every digest is exactly 32 bytes. -/

def BLOCK_SIZE : Nat := 64

def HASH_SIZE : Nat := 32

def IPAD : Nat := 0x36

def OPAD : Nat := 0x5C

/-- `std::vector::resize(n, 0)`: truncate to `n` elements or pad with
zero bytes up to `n`. -/
def resizeZero (l : List Nat) (n : Nat) : List Nat :=
  l.take n ++ List.replicate (n - l.length) 0

/-- `HmacSha256` translated from `SimpleCrypto.cpp`: hash over-long keys,
zero-pad to the block size, and apply the two nested hashes with the
`0x36`/`0x5C` paddings (the C++ loop computing `innerKey`/`outerKey`
element-wise becomes `List.map`). -/
def HmacSha256 (sha256 : List Nat → List Nat) (key message : List Nat) : List Nat :=
  let processedKey := if key.length > BLOCK_SIZE then sha256 key else key
  let paddedKey := resizeZero processedKey BLOCK_SIZE
  let innerKey := paddedKey.map (fun b => b ^^^ IPAD)
  let outerKey := paddedKey.map (fun b => b ^^^ OPAD)
  let innerHash := sha256 (innerKey ++ message)
  sha256 (outerKey ++ innerHash)

/-- The RFC 2104 reference definition, written from the claim's words: a
key longer than 64 bytes is first replaced by its hash, the key is
zero-padded to 64 bytes, and the result is
`H((K xor opad) || H((K xor ipad) || message))`. -/
def rfc2104HmacSha256 (sha256 : List Nat → List Nat) (key message : List Nat) : List Nat :=
  let shortKey := if key.length > 64 then sha256 key else key
  let K := shortKey ++ List.replicate (64 - shortKey.length) 0
  sha256 ((K.map (fun b => b ^^^ 0x5C)) ++ sha256 ((K.map (fun b => b ^^^ 0x36)) ++ message))

/-- A tiny deterministic stand-in for the external SHA-256 compression
function, used only to instantiate hypotheses in concrete witnesses; it
honours PicoSHA2's 32-byte output contract. -/
def toySha256 (l : List Nat) : List Nat :=
  let h := l.foldl (fun a b => (a * 131 + b + 17) % 4294967296) 5381
  (List.range 32).map (fun i => ((h + 2654435761 * i) / 2 ^ (8 * (i % 4))) % 256)

/-! ## JsonProtector.cpp

Canonical serialisation is `dump(-1, ' ', false, strict)`: compact, and —
because `nlohmann::json` objects are key-sorted `std::map`s — with
lexicographically sorted keys.  Since `Json.setFields` maintains the
map's sorted iteration order, `dump` simply emits fields in stored
order. -/

def hexDigitLower (n : Nat) : Char :=
  if n < 10 then Char.ofNat ('0'.toNat + n) else Char.ofNat ('a'.toNat + n - 10)

/-- `nlohmann` string escaping with `ensure_ascii = false`: quote,
backslash and the named control characters get two-character escapes,
any other control character becomes `\u00XX`, everything else is copied
as-is. -/
def escapeChar (c : Char) : List Char :=
  if c = '"' then ['\\', '"']
  else if c = '\\' then ['\\', '\\']
  else if c.toNat = 8 then ['\\', 'b']
  else if c.toNat = 12 then ['\\', 'f']
  else if c = '\n' then ['\\', 'n']
  else if c.toNat = 13 then ['\\', 'r']
  else if c = '\t' then ['\\', 't']
  else if c.toNat < 32 then
    ['\\', 'u', '0', '0', hexDigitLower (c.toNat / 16), hexDigitLower (c.toNat % 16)]
  else [c]

def dumpStr (s : List Char) : List Char :=
  '"' :: (s.flatMap escapeChar ++ ['"'])

mutual

/-- `json::dump(-1, ' ', false, strict)` — compact canonical form. -/
def dumpJson : Json → List Char
  | Json.null => "null".toList
  | Json.bool true => "true".toList
  | Json.bool false => "false".toList
  | Json.num n => (toString n).toList
  | Json.str s => dumpStr s
  | Json.arr elems => '[' :: (dumpJsonList elems ++ [']'])
  | Json.obj fields => '\x7b' :: (dumpJsonFields fields ++ ['\x7d'])

def dumpJsonList : List Json → List Char
  | [] => []
  | [j] => dumpJson j
  | j :: rest => dumpJson j ++ ',' :: dumpJsonList rest

def dumpJsonFields : List (List Char × Json) → List Char
  | [] => []
  | [(k, v)] => dumpStr k ++ ':' :: dumpJson v
  | (k, v) :: rest => dumpStr k ++ ':' :: dumpJson v ++ ',' :: dumpJsonFields rest

end

def strToBytes (s : List Char) : List Nat := s.map Char.toNat

/-- `%02x`-style lower-case hex with a minimum width of two digits. -/
def byteToHex (b : Nat) : List Char :=
  let digits := Nat.toDigits 16 b
  if digits.length < 2 then '0' :: digits else digits

/-- `BytesToHexString` from `SimpleTools.cpp`. -/
def BytesToHexString (data : List Nat) : List Char :=
  data.flatMap byteToHex

/-- `ComputeJsonHash`: HMAC-SHA256 of the canonical serialisation, keyed
by the password, rendered as lower-case hex. -/
def ComputeJsonHash (sha256 : List Nat → List Nat) (data : Json) (password : List Char) :
    List Char :=
  BytesToHexString (HmacSha256 sha256 (strToBytes password) (strToBytes (dumpJson data)))

/-- `std::getline(ss, part, '.')` splitting: like `Split`, except that the
empty string yields no token and one trailing delimiter is swallowed. -/
def splitGetline (s : List Char) (d : Char) : List (List Char) :=
  if s = [] then []
  else if s.getLast? = some d then (Split s d).dropLast
  else Split s d

/-- One hop of `GetNestedSection`: the current value must be an object
containing the path component. -/
def nestedStep (current : Json) (part : List Char) : Except String Json :=
  if current.isObj && current.contains part then
    Except.ok ((current.get part).getD Json.null)
  else
    Except.error "Section path not found in configuration"

/-- `GetNestedSection` from `JsonProtector.cpp`: walk the dot-separated
path, object hop by object hop. -/
def GetNestedSection (data : Json) (path : List Char) : Except String Json :=
  (splitGetline path '.').foldlM nestedStep data

def pSKey : List Char := "protectedSections".toList

def pSHKey : List Char := "protectedSectionsHash".toList

def sectionNameKey : List Char := "sectionName".toList

def hashStoreKey : List Char := "hash".toList

/-- The per-section pass of `ProtectJson`: for each index of the
`protectedSections` array (whose length never changes), read the entry
from the **current** document state, resolve its `sectionName`, hash the
section, and store the hex hash back into the entry — observing earlier
mutations exactly as the C++ loop does through its references. -/
def protectSectionsFrom (sha256 : List Nat → List Nat) (password : List Char)
    (doc : Json) (i : Nat) : Nat → Except String Json
  | 0 => Except.ok doc
  | r + 1 =>
    match doc.get pSKey with
    | some (Json.arr entries) =>
      match entries.get? i with
      | some entry =>
        if entry.isObj && entry.contains sectionNameKey then
          match entry.get sectionNameKey with
          | some (Json.str sectionName) =>
            match GetNestedSection doc sectionName with
            | Except.ok sectionData =>
              let hash := ComputeJsonHash sha256 sectionData password
              let entry2 := entry.setKey hashStoreKey (Json.str hash)
              let doc2 := doc.setKey pSKey (Json.arr (entries.set i entry2))
              protectSectionsFrom sha256 password doc2 (i + 1) r
            | Except.error e =>
              Except.error ("Failed to process protected section: " ++ e)
          | _ => Except.error "sectionName must be a string"
        else
          Except.error "Each protected section must be an object with sectionName field"
      | none => Except.ok doc
    | _ => Except.error "protectedSections must be an array"

/-- `ProtectJson`: validate the `protectedSections` array, write each
section's hash, then hash the updated array into
`protectedSectionsHash`. -/
def ProtectJson (sha256 : List Nat → List Nat) (doc : Json) (password : List Char) :
    Except String Json :=
  match doc.get pSKey with
  | some (Json.arr entries) =>
    match protectSectionsFrom sha256 password doc 0 entries.length with
    | Except.ok doc2 =>
      match doc2.get pSKey with
      | some sections2 =>
        Except.ok (doc2.setKey pSHKey
          (Json.str (ComputeJsonHash sha256 sections2 password)))
      | none => Except.error "protectedSections disappeared"
    | Except.error e => Except.error e
  | some _ => Except.error "protectedSections must be an array"
  | none => Except.error "JSON data must contain protectedSections array"

/-- The per-section pass of `VerifyJsonProtection` (read-only). -/
def verifySections (sha256 : List Nat → List Nat) (password : List Char)
    (doc : Json) : List Json → Except String Unit
  | [] => Except.ok ()
  | entry :: rest =>
    if entry.isObj && entry.contains sectionNameKey && entry.contains hashStoreKey then
      match entry.get sectionNameKey, entry.get hashStoreKey with
      | some (Json.str sectionName), some (Json.str storedHash) =>
        match GetNestedSection doc sectionName with
        | Except.ok sectionData =>
          if storedHash = ComputeJsonHash sha256 sectionData password then
            verifySections sha256 password doc rest
          else
            Except.error "Hash verification failed for protected section"
        | Except.error e =>
          Except.error ("Failed to verify protected section: " ++ e)
      | _, _ => Except.error "sectionName and hash must be strings"
    else
      Except.error "Each protected section must be an object with sectionName and hash fields"

/-- `VerifyJsonProtection`: check the array-level hash first, then every
section hash. -/
def VerifyJsonProtection (sha256 : List Nat → List Nat) (doc : Json)
    (password : List Char) : Except String Unit :=
  if doc.contains pSKey && doc.contains pSHKey then
    match doc.get pSKey with
    | some (Json.arr entries) =>
      match doc.get pSHKey with
      | some (Json.str storedPSH) =>
        if storedPSH = ComputeJsonHash sha256 (Json.arr entries) password then
          verifySections sha256 password doc entries
        else
          Except.error "protectedSectionsHash verification failed"
      | _ => Except.error "protectedSectionsHash must be a string"
    | _ => Except.error "protectedSections must be an array"
  else
    Except.error "JSON data must contain protectedSections array and protectedSectionsHash field"

/-! ### Frame reasoning for ProtectJson / VerifyJsonProtection -/

/-- `d` agrees with `base` on every top-level key other than
`protectedSections` and `protectedSectionsHash` — the only keys
`ProtectJson` ever writes. -/
def DocAgree (base d : Json) : Prop :=
  d.isObj = true ∧ ∀ k, k ≠ pSKey → k ≠ pSHKey →
    d.contains k = base.contains k ∧ d.get k = base.get k

/-! ### The protect loop -/

/-- The `sectionName` string of a well-formed entry. -/
def entrySecName (entry : Json) : List Char :=
  match entry.get sectionNameKey with
  | some (Json.str n) => n
  | _ => []

/-- The hex HMAC the protect pass computes for one entry (resolved
against the pre-protection document `base`, which frame reasoning shows
is what every loop iteration actually hashes). -/
def sectionHashOf (sha256 : List Nat → List Nat) (password : List Char)
    (base : Json) (entry : Json) : List Char :=
  ComputeJsonHash sha256
    ((GetNestedSection base (entrySecName entry)).toOption.getD Json.null) password

/-- The entry after the protect pass: its `hash` field holds the hex HMAC. -/
def protectEntry (sha256 : List Nat → List Nat) (password : List Char)
    (base : Json) (entry : Json) : Json :=
  entry.setKey hashStoreKey (Json.str (sectionHashOf sha256 password base entry))

/-- Well-formedness of one `protectedSections` entry, as the amended claim
requires it: an object with a string `sectionName` whose dot-path is
non-empty, starts outside `protectedSections`/`protectedSectionsHash`,
and resolves in the document. -/
def GoodEntry (base : Json) (entry : Json) : Prop :=
  entry.isObj = true ∧
  ∃ name, entry.get sectionNameKey = some (Json.str name) ∧
    (∃ t ts, splitGetline name '.' = t :: ts ∧ t ≠ pSKey ∧ t ≠ pSHKey) ∧
    ∃ j, GetNestedSection base name = Except.ok j

def wSection : Json := Json.obj [("k".toList, Json.num 1)]

def wEntry : Json := Json.obj [(sectionNameKey, Json.str "cfg".toList)]

def wDoc : Json := Json.obj [("cfg".toList, wSection), (pSKey, Json.arr [wEntry])]

def cexDoc : Json :=
  Json.obj [(pSKey, Json.arr [Json.obj [(sectionNameKey, Json.str pSKey)]])]

/-! ## SvcWatchDog.cpp: ReceiveUdpPing and the heartbeat drain

`recvfrom` is called with a 1022-byte limit (`sizeof(buffer) - 2`); on
Windows a larger datagram is truncated and reported as `SOCKET_ERROR`
(`WSAEMSGSIZE`), which the code treats like any other receive error.
The payload comparison is `strncmp(buffer, secret.c_str(), received)`,
which stops at the first NUL byte; the supervisor generates secrets of
decimal digits only, so they never contain NUL. -/

/-- `isprint` in the C locale on a byte read through a (signed) `char`:
printable exactly for `0x20 ≤ b ≤ 0x7E`. -/
def isPrintByte (b : Nat) : Bool := 0x20 ≤ b && b ≤ 0x7E

/-- The warning text the code builds from an invalid datagram: it
null-terminates the buffer and walks it up to the first NUL, replacing
non-printable bytes with spaces — so the text is the payload truncated
at the first NUL byte. -/
def sanitizePingData (payload : List Nat) : List Nat :=
  (payload.takeWhile (fun b => b ≠ 0)).map (fun b => if isPrintByte b then b else 0x20)

/-- What the spec's words describe: the payload with non-printable bytes
replaced by spaces (no truncation). -/
def spacedPayload (payload : List Nat) : List Nat :=
  payload.map (fun b => if isPrintByte b then b else 0x20)

/-- `strncmp(a, b, n) == 0` on NUL-terminated byte strings (reading past
the end of a list yields the terminating NUL). -/
def strncmpEq : Nat → List Nat → List Nat → Bool
  | 0, _, _ => true
  | n + 1, a, b =>
    let ca := a.headD 0
    let cb := b.headD 0
    if ca ≠ cb then false
    else if ca = 0 then true
    else strncmpEq n a.tail b.tail

inductive PingResult where
  | accepted : PingResult
  | invalidData (logged : List Nat) : PingResult
  | ignored : PingResult
  deriving DecidableEq

/-- `SvcWatchDog::ReceiveUdpPing` on one datagram: oversized datagrams
surface as a receive error (ignored), the empty receive is ignored, a
payload passing the length + `strncmp` test is an accepted ping, and
anything else is logged as a warning with the sanitized payload. -/
def ReceiveUdpPing (secret payload : List Nat) : PingResult :=
  if payload.length > 1022 then PingResult.ignored
  else if payload.length > 0 then
    if payload.length = secret.length &&
        strncmpEq payload.length payload (secret ++ [0]) then
      PingResult.accepted
    else
      PingResult.invalidData (sanitizePingData payload)
  else PingResult.ignored

/-- The monitor loop's drain, `while (ReceiveUdpPing())`: datagrams are
read one at a time and each accepted ping re-arms `nextPing` to
`now + watchdogTimeout`, but the loop **exits at the first datagram that
is not a valid ping** (`ReceiveUdpPing` returns false after logging the
warning, and on an empty queue) — any datagrams still pending, valid
pings included, stay queued for a later poll iteration. -/
def drainPings (secret : List Nat) (watchdogTimeout now : Nat)
    (nextPing : Nat) : List (List Nat) → Nat
  | [] => nextPing
  | payload :: rest =>
    if ReceiveUdpPing secret payload = PingResult.accepted then
      drainPings secret watchdogTimeout now (now + watchdogTimeout) rest
    else nextPing

/-! ## SvcWatchDog.cpp: the Run loop and per-generation state

`SvcWatchDog::Run` (lines 323–454) generates the watchdog secret, binds
the UDP port and exports `WATCHDOG_PORT` / `WATCHDOG_SECRET` /
`SHUTDOWN_EVENT` **before** entering the `while (m_isRunning)` generation
loop; each iteration only resets the shutdown event, clears `killTime`
and spawns the child with the environment already in place.  The trace
model below mirrors that control flow, with the child's monitoring
abstracted to "the child of this generation eventually dies" (one loop
iteration per generation) and the `rand()` / `SteadyTime()` draws as
explicit inputs. -/

inductive RunEvent where
  | genSecret (secret : List Char) : RunEvent
  | bindPort (port : Nat) : RunEvent
  | exportEnv (name value : List Char) : RunEvent
  | spawnChild (watchdogSecret : Option (List Char)) (watchdogPort : Option Nat) : RunEvent
  deriving DecidableEq

def isSpawnEvent : RunEvent → Bool
  | RunEvent.spawnChild _ _ => true
  | _ => false

def isGenSecretEvent : RunEvent → Bool
  | RunEvent.genSecret _ => true
  | _ => false

/-- `m_watchdogSecret = to_string(rand()) + to_string(SteadyTime())`. -/
def watchdogSecretValue (randDraw steadyDraw : Nat) : List Char :=
  (toString randDraw).toList ++ (toString steadyDraw).toList

/-- The `while (m_isRunning)` loop: one `spawnChild` per generation, each
with the environment (secret, port) that was set up before the loop. -/
def runGenerations (env : Option (List Char × Nat)) : Nat → List RunEvent
  | 0 => []
  | g + 1 =>
    RunEvent.spawnChild (env.map Prod.fst) (env.map Prod.snd) :: runGenerations env g

/-- Skeleton of `SvcWatchDog::Run`: secret generation, UDP bind and the
environment exports happen once, before the generation loop. -/
def runTrace (watchdogTimeout : Int) (bindOk : Bool) (randDraw steadyDraw port : Nat)
    (shutdownEventName : List Char) (generations : Nat) : List RunEvent :=
  let secret := watchdogSecretValue randDraw steadyDraw
  let setup :=
    if watchdogTimeout > 0 then
      RunEvent.genSecret secret ::
        (if bindOk then
          [RunEvent.bindPort port,
           RunEvent.exportEnv "WATCHDOG_PORT".toList (toString port).toList,
           RunEvent.exportEnv "WATCHDOG_SECRET".toList secret]
         else [])
    else []
  let env := if watchdogTimeout > 0 ∧ bindOk = true then some (secret, port) else none
  setup ++ [RunEvent.exportEnv "SHUTDOWN_EVENT".toList shutdownEventName] ++
    runGenerations env generations

mutual

/-- The claim's per-generation freshness, read off a trace: between every
pair of consecutive `spawnChild` events a `genSecret` event occurs. -/
def freshSecretBetweenSpawns : List RunEvent → Bool
  | [] => true
  | RunEvent.spawnChild _ _ :: rest => freshAfterSpawn rest
  | _ :: rest => freshSecretBetweenSpawns rest

/-- Helper scan state: the previous spawn has not yet been followed by a
`genSecret`. -/
def freshAfterSpawn : List RunEvent → Bool
  | [] => true
  | RunEvent.spawnChild _ _ :: _ => false
  | RunEvent.genSecret _ :: rest => freshSecretBetweenSpawns rest
  | _ :: rest => freshAfterSpawn rest

end

/-! ## Logger.cpp: FlushFileQueue retention

After a rotation rename, `Logger::FlushFileQueue` (lines 347–374)
collects every regular file in the log directory whose extension equals
the log file's extension and whose stem starts with the log file's stem
(`find(baseName) == 0`), and — when the set exceeds `maxOldFiles` —
sorts it by path and deletes the first `count − maxOldFiles` entries.
Directory entries are modelled by the stem/extension decomposition that
`std::filesystem` provides. -/

structure DirEntry where
  stem : String
  ext : String
  isRegularFile : Bool
  deriving DecidableEq

/-- The file name, as `std::filesystem::path` compares entries of the
same directory: stem followed by extension (the extension includes its
leading dot). -/
def entryPathName (e : DirEntry) : String := e.stem ++ e.ext

/-- Membership in the rotation set: `entry.is_regular_file() &&
entry.path().extension() == extension &&
entry.path().stem().string().find(baseName) == 0`. -/
def inRotationSet (baseName ext : String) (e : DirEntry) : Bool :=
  e.isRegularFile && e.ext == ext && e.stem.startsWith baseName

def rotationSet (listing : List DirEntry) (baseName ext : String) : List DirEntry :=
  listing.filter (inRotationSet baseName ext)

def pathLe (a b : DirEntry) : Prop := entryPathName a ≤ entryPathName b

instance : DecidableRel pathLe := fun a b =>
  inferInstanceAs (Decidable (entryPathName a ≤ entryPathName b))

instance : IsTotal DirEntry pathLe := ⟨fun _ _ => le_total _ _⟩

instance : IsTrans DirEntry pathLe := ⟨fun _ _ _ => le_trans⟩

/-- The retention step of `Logger::FlushFileQueue`, returning the deleted
files and the directory listing after deletion. -/
def FlushFileQueueRetention (listing : List DirEntry) (baseName ext : String)
    (maxOldFiles : Nat) : List DirEntry × List DirEntry :=
  if maxOldFiles > 0 then
    let oldFiles := listing.filter (inRotationSet baseName ext)
    if oldFiles.length > maxOldFiles then
      let sorted := List.insertionSort pathLe oldFiles
      let deleted := sorted.take (oldFiles.length - maxOldFiles)
      (deleted, listing.filter (fun e => e ∉ deleted))
    else ([], listing)
  else ([], listing)

/-! ## Logger.cpp: Log formatting and suppression

`Logger::Log` is embedded as a pure state transformer over the fields it
reads and writes; the wall-clock time, the steady clock and the thread
id hash are explicit inputs.  The `snprintf` buffer is
`message.length + locationPrefix.length + 60` bytes while the fixed part
of a line (timestamp, level tag, thread id, newline) is at most 41
bytes, so the formatted line is never truncated and plain concatenation
models it exactly. -/

inductive LogLevel where
  | Verbose : LogLevel
  | Debug : LogLevel
  | Information : LogLevel
  | Warning : LogLevel
  | Error : LogLevel
  | Fatal : LogLevel
  | MaskAllLogs : LogLevel
  deriving DecidableEq

def LogLevel.toNat : LogLevel → Nat
  | Verbose => 0
  | Debug => 1
  | Information => 2
  | Warning => 3
  | Error => 4
  | Fatal => 5
  | MaskAllLogs => 6

/-- The `switch (level)` of `Logger::Log`: named tags for the six real
levels, `"UNK"` for anything else. -/
def levelName : LogLevel → List Char
  | LogLevel.Verbose => "VRB".toList
  | LogLevel.Debug => "DBG".toList
  | LogLevel.Information => "INF".toList
  | LogLevel.Warning => "WRN".toList
  | LogLevel.Error => "ERR".toList
  | LogLevel.Fatal => "FAT".toList
  | LogLevel.MaskAllLogs => "UNK".toList

/-- `filesystem::path::preferred_separator` on Windows. -/
def sepChar : Char := '\\'

/-- The file-name region the backward scan of `Logger::GetLocationPrefix`
covers: everything after the last separator. -/
def afterLastSep (file : List Char) : List Char :=
  (file.reverse.takeWhile (fun c => c ≠ sepChar)).reverse

/-- The index of the dot the scan records: the **last** `'.'` strictly
before the final character of the name — the final character itself can
only ever equal the not-found sentinel — and, when the path contains no
separator, also strictly after the first character (the loop stops at
`f > file` without examining index 0). -/
def lastDotIdx (name : List Char) (lo : Nat) : Option Nat :=
  (List.range name.length).foldl
    (fun acc p =>
      if lo ≤ p ∧ p + 1 < name.length ∧ name.get? p = some '.' then some p else acc)
    none

/-- `strstr(haystack, pat) != NULL`: does `pat` occur as a contiguous
substring? -/
def containsSub (pat : List Char) : List Char → Bool
  | [] => pat.isPrefixOf []
  | c :: rest => pat.isPrefixOf (c :: rest) || containsSub pat rest

/-- Building the prefix from the (possibly missing) recorded dot: up to
and including the last dot when one was found, else the whole name with
a dot appended. -/
def stemPrefix (name : List Char) (dotIdx : Option Nat) (fn : List Char) : List Char :=
  match dotIdx with
  | some p => name.take (p + 1) ++ fn ++ ": ".toList
  | none => name ++ ".".toList ++ fn ++ ": ".toList

/-- `Logger::GetLocationPrefix` (Logger.cpp lines 438–473): a function
signature containing `::` is used verbatim; otherwise the file stem (up
to and including its last dot, or the whole name plus a dot when no dot
is found) is prepended. -/
def GetLocationPrefix (file fn : List Char) : List Char :=
  if containsSub "::".toList fn then fn ++ ": ".toList
  else
    stemPrefix (afterLastSep file)
      (lastDotIdx (afterLastSep file)
        (if (afterLastSep file).length < file.length then 0 else 1)) fn

structure Timestamp where
  year : Nat
  month : Nat
  day : Nat
  hour : Nat
  minute : Nat
  second : Nat
  ms : Nat
  deriving DecidableEq

/-- `%0Nd`: decimal with zero padding to a minimum width. -/
def pad (w n : Nat) : List Char :=
  let digits := (toString n).toList
  List.replicate (w - digits.length) '0' ++ digits

def formatTimestamp (t : Timestamp) : List Char :=
  pad 4 t.year ++ "-".toList ++ pad 2 t.month ++ "-".toList ++ pad 2 t.day ++
    " ".toList ++ pad 2 t.hour ++ ":".toList ++ pad 2 t.minute ++ ":".toList ++
    pad 2 t.second ++ ".".toList ++ pad 3 t.ms

/-- `%08x` of the thread-id hash truncated to 32 bits: values below
`2^32 = 16^8` print as exactly eight lower-case hex digits. -/
def hex8 (tid : Nat) : List Char :=
  (List.range 8).map (fun i => hexDigitLower (tid % 2 ^ 32 / 16 ^ (7 - i) % 16))

/-- The `"%04d-%02d-%02d %02d:%02d:%02d.%03d [%s] %s%s%s\n"` line. -/
def formatLogLine (ts : Timestamp) (level : LogLevel) (logThreadId : Bool) (tid : Nat)
    (locationPrefix message : List Char) : List Char :=
  formatTimestamp ts ++ " [".toList ++ levelName level ++ "] ".toList ++
    (if logThreadId then hex8 tid ++ ": ".toList else []) ++
    locationPrefix ++ message ++ "\n".toList

/-- The fields of `Logger` that `Log` reads or writes. -/
structure LoggerState where
  mute : Bool
  running : Bool
  logThreadId : Bool
  minConsoleLevel : LogLevel
  minFileLevel : LogLevel
  minEmailLevel : LogLevel
  fileQueue : List (List Char)
  emailQueue : List (List Char)
  emailTimestamp : Nat
  deriving DecidableEq

/-- `(file && func) ? GetLocationPrefix(file, func) : ""`. -/
def locPrefixOf : Option (List Char) → Option (List Char) → List Char
  | some f, some g => GetLocationPrefix f g
  | _, _ => []

/-- Does the origin file name end in `EmailSender.cpp` (the logger's
anti-loop guard for its own email path)? -/
def fromEmailSender : Option (List Char) → Bool
  | some f => List.isSuffixOf "EmailSender.cpp".toList f
  | none => false

/-- `Logger::Log`: the early suppression check, formatting on the caller
thread, then — under the mutex — console output, the email queue (with
its batch epoch) and the file queue.  Returns the new state and the line
written to the console, if any. -/
def Log (st : LoggerState) (now : Nat) (ts : Timestamp) (tid : Nat)
    (level : LogLevel) (message : List Char) (file fn : Option (List Char)) :
    LoggerState × Option (List Char) :=
  if st.mute || !st.running ||
      (decide (level.toNat < st.minConsoleLevel.toNat) &&
       decide (level.toNat < st.minFileLevel.toNat) &&
       decide (level.toNat < st.minEmailLevel.toNat)) then
    (st, none)
  else
    let locationPrefix := locPrefixOf file fn
    let fullMessage := formatLogLine ts level st.logThreadId tid locationPrefix message
    let consoleOut :=
      if st.minConsoleLevel.toNat ≤ level.toNat then some fullMessage else none
    let emailPush :=
      st.minEmailLevel.toNat ≤ level.toNat && !fromEmailSender file
    let st :=
      if emailPush then
        { st with
          emailTimestamp := if st.emailQueue.isEmpty then now else st.emailTimestamp,
          emailQueue := st.emailQueue ++ [fullMessage] }
      else st
    let st :=
      if st.minFileLevel.toNat ≤ level.toNat then
        { st with fileQueue := st.fileQueue ++ [fullMessage] }
      else st
    (st, consoleOut)

def wLogSt : LoggerState :=
  ⟨false, true, true, LogLevel.Verbose, LogLevel.Verbose, LogLevel.MaskAllLogs, [], [], 0⟩

/-! ## Logger.cpp: LoggerStream destruction after singleton teardown -/

/-- `LoggerStream::~LoggerStream` (Logger.cpp line 496) is exactly
`Logger::GetInstance()->Log(m_level, m_buffer.str(), m_file, m_func);`
with **no null check**: the embedded destructor can only produce a value
by dereferencing the singleton, and a missing singleton is a null-pointer
dereference, modelled as a fault. -/
def LoggerStreamDestructor (instanceOpt : Option LoggerState) (now : Nat) (ts : Timestamp)
    (tid : Nat) (level : LogLevel) (buffered : List Char)
    (file fn : Option (List Char)) : Except Unit (LoggerState × Option (List Char)) :=
  match instanceOpt with
  | some st => Except.ok (Log st now ts tid level buffered file fn)
  | none => Except.error ()

/-! ## Theorems -/

theorem Split_ne_nil (s : List Char) (d : Char) : Split s d ≠ [] := by
  induction s with
  | nil => simp [Split]
  | cons c rest ih =>
    simp only [Split]
    split
    · simp
    · cases h : Split rest d with
      | nil => exact absurd h ih
      | cons t ts => simp

/-- Claim C4: the four configuration getters degrade to the supplied
default whenever a hop of the path is missing (`FindKey` fails) or the
terminal value is not coercible to the requested type; the embedded
getters are total functions of the document — the C++ bodies reach this
totality by a catch-all around the conversion, so no exception escapes —
and no getter mutates the document: every hop applies `operator[]` only
behind a `contains` check, and behind that guard `operator[]` returns
the mapped value without inserting anything (the last conjunct). -/
theorem config_getters_default (doc : Json) (path key : List Char)
    (ds : List Char) (dn : Int) (db : Bool) (dv : List (List Char)) :
    (FindKey doc path key = none →
      GetString doc path key ds = ds ∧
      GetNumber doc path key dn = dn ∧
      GetBool doc path key db = db ∧
      GetStringVector doc path key dv = dv) ∧
    (∀ j, FindKey doc path key = some j →
      (coerceString j = none → GetString doc path key ds = ds) ∧
      (coerceBool j = none → GetBool doc path key db = db) ∧
      (coerceStringVector j = none → GetStringVector doc path key dv = dv) ∧
      (numberCoercible j = false → GetNumber doc path key dn = dn)) ∧
    (∀ (hop : Json) (token : List Char), hop.contains token = true →
      (getOrInsert hop token).2 = hop ∧
      some (getOrInsert hop token).1 = hop.get token) := by
  refine ⟨?_, ?_, ?_⟩
  rotate_right
  · intro hop token hcont
    cases hop
    case obj f =>
      cases hf : List.find? (fun kv => decide (kv.1 = token)) f with
      | none =>
        exfalso
        rw [Json.contains, List.any_eq_true] at hcont
        obtain ⟨kv, hmem, hkv⟩ := hcont
        have hsome : (List.find? (fun kv => decide (kv.1 = token)) f).isSome :=
          List.find?_isSome.mpr ⟨kv, hmem, hkv⟩
        rw [hf] at hsome
        cases hsome
      | some kv => constructor <;> simp [getOrInsert, hf, Json.get]
    all_goals simp [Json.contains] at hcont
  · intro h
    refine ⟨?_, ?_, ?_, ?_⟩ <;>
      simp [GetString, GetNumber, GetBool, GetStringVector, GetParameter, h]
  · intro j hj
    refine ⟨?_, ?_, ?_, ?_⟩
    · intro hc; simp [GetString, GetParameter, hj, hc]
    · intro hc; simp [GetBool, GetParameter, hj, hc]
    · intro hc; simp [GetStringVector, GetParameter, hj, hc]
    · intro hc
      simp only [numberCoercible, Bool.or_eq_false_iff] at hc
      obtain ⟨hnum, hrest⟩ := hc
      have hnum' : coerceNum j = none := by
        cases hcn : coerceNum j <;> simp [hcn] at hnum ⊢
      simp only [GetNumber, hj, hnum']
      cases hs : coerceString j with
      | none => simp
      | some s =>
        simp only [hs] at hrest
        by_cases hh : hasHexMark s
        · simp only [hh, if_true] at hrest
          have : parseHexU64 s = none := by
            cases hp : parseHexU64 s <;> simp [hp] at hrest ⊢
          simp [hh, this]
        · simp only [hh, if_false] at hrest
          have : parseDecInt s = none := by
            cases hp : parseDecInt s <;> simp [hp] at hrest ⊢
          simp [hh, this]

/-- Witness for C4 at a concrete document: a missing path yields the
string default and a non-coercible terminal (a string that is not a
number) yields the numeric default. -/
theorem config_getters_default_witness :
    GetString cfgDocW "missing".toList "x".toList "dflt".toList = "dflt".toList ∧
    GetNumber cfgDocW "s".toList [] 7 = 7 ∧
    (getOrInsert cfgDocW "a".toList).2 = cfgDocW := by
  refine ⟨?_, ?_, ?_⟩
  · exact ((config_getters_default cfgDocW "missing".toList "x".toList
      "dflt".toList 7 true []).1 (by rfl)).1
  · exact (((config_getters_default cfgDocW "s".toList []
      "dflt".toList 7 true []).2.1 (Json.str "hi".toList) (by rfl)).2.2.2 (by rfl))
  · exact ((config_getters_default cfgDocW [] "a".toList
      "dflt".toList 7 true []).2.2 cfgDocW "a".toList (by rfl)).1

/-- Claim C10: with an empty path, `Split` produces the single empty
token, so `FindKey` looks up the empty key at the top level; when the
top-level object has no empty-string key every getter falls back to its
default even if `key` itself is a top-level key, and only `GetJson`
special-cases the empty path to the whole document. -/
theorem empty_path_getters (doc : Json) (key : List Char) (hk : key ≠ [])
    (h : doc.contains [] = false)
    (ds : List Char) (dn : Int) (db : Bool) (dv : List (List Char)) :
    GetString doc [] key ds = ds ∧
    GetNumber doc [] key dn = dn ∧
    GetBool doc [] key db = db ∧
    GetStringVector doc [] key dv = dv ∧
    GetJson doc [] = some doc := by
  have hfind : FindKey doc [] key = none := by
    simp [FindKey, Split, hk, h]
  refine ⟨?_, ?_, ?_, ?_, by simp [GetJson]⟩ <;>
    simp [GetString, GetNumber, GetBool, GetStringVector, GetParameter, hfind]

/-- Witness for C10: the key `"a"` exists at the top level of the
concrete document, yet every getter called with the empty path returns
its default, while `GetJson` returns the whole document. -/
theorem empty_path_getters_witness :
    GetString cfgDocW [] "a".toList "d".toList = "d".toList ∧
    GetNumber cfgDocW [] "a".toList 7 = 7 ∧
    cfgDocW.contains "a".toList = true := by
  have h := empty_path_getters cfgDocW "a".toList (by decide) (by rfl)
    "d".toList 7 true []
  exact ⟨h.1, h.2.1, by rfl⟩

/-- Claim C9: for every key and message, the repository's `HmacSha256`
coincides with the RFC 2104 HMAC reference definition over the same
compression function, and the result is always exactly 32 bytes long
(given PicoSHA2's 32-byte digest contract). -/
theorem HmacSha256_rfc2104 (sha256 : List Nat → List Nat)
    (hlen : ∀ m, (sha256 m).length = 32) (key message : List Nat) :
    HmacSha256 sha256 key message = rfc2104HmacSha256 sha256 key message ∧
    (HmacSha256 sha256 key message).length = 32 := by
  have hshort : (if key.length > BLOCK_SIZE then sha256 key else key).length ≤ 64 := by
    simp only [BLOCK_SIZE]
    split
    · rw [hlen]; norm_num
    · omega
  have hres : resizeZero (if key.length > BLOCK_SIZE then sha256 key else key) BLOCK_SIZE =
      (if key.length > BLOCK_SIZE then sha256 key else key) ++
        List.replicate (64 - (if key.length > BLOCK_SIZE then sha256 key else key).length) 0 := by
    simp only [resizeZero, BLOCK_SIZE] at hshort ⊢
    rw [List.take_of_length_le hshort]
  constructor
  · rw [HmacSha256, rfc2104HmacSha256]
    simp only [BLOCK_SIZE, IPAD, OPAD] at hres ⊢
    rw [hres]
  · rw [HmacSha256]
    exact hlen _

theorem toySha256_length (m : List Nat) : (toySha256 m).length = 32 := by
  simp [toySha256]

/-- Witness for C9 at a concrete key and message. -/
theorem HmacSha256_rfc2104_witness :
    HmacSha256 toySha256 [1, 2, 3] [4, 5] = rfc2104HmacSha256 toySha256 [1, 2, 3] [4, 5] ∧
    (HmacSha256 toySha256 [1, 2, 3] [4, 5]).length = 32 :=
  HmacSha256_rfc2104 toySha256 toySha256_length [1, 2, 3] [4, 5]

/-! ### Object-map lemmas -/

theorem lexLt_irrefl (s : List Char) : Json.lexLt s s = false := by
  induction s with
  | nil => rfl
  | cons c rest ih => simp [Json.lexLt, ih]

theorem find?_setFields_same (k : List Char) (v : Json) (f : List (List Char × Json)) :
    (Json.setFields k v f).find? (fun kv => kv.1 = k) = some (k, v) := by
  induction f with
  | nil => simp [Json.setFields]
  | cons kv rest ih =>
    simp only [Json.setFields]
    by_cases h1 : Json.lexLt k kv.1
    · simp [h1]
    · by_cases h2 : kv.1 = k
      · simp [h1, h2, lexLt_irrefl]
      · simp [h1, h2, List.find?, ih]

theorem find?_setFields_ne (k k' : List Char) (v : Json) (f : List (List Char × Json))
    (h : k' ≠ k) :
    (Json.setFields k v f).find? (fun kv => kv.1 = k') = f.find? (fun kv => kv.1 = k') := by
  induction f with
  | nil => simp [Json.setFields, List.find?, Ne.symm h]
  | cons kv rest ih =>
    simp only [Json.setFields]
    by_cases h1 : Json.lexLt k kv.1
    · simp [h1, List.find?, Ne.symm h]
    · by_cases h2 : kv.1 = k
      · have hne : kv.1 ≠ k' := by rw [h2]; exact Ne.symm h
        simp [h1, h2, List.find?, Ne.symm h, hne, lexLt_irrefl]
      · simp only [h1, if_false, h2]
        cases h3 : (kv.1 = k' : Bool) <;> simp [List.find?, h3, ih]

theorem any_eq_find?_isSome (k : List Char) (f : List (List Char × Json)) :
    f.any (fun kv => kv.1 = k) = (f.find? (fun kv => kv.1 = k)).isSome := by
  induction f with
  | nil => simp
  | cons kv rest ih =>
    cases h : (kv.1 = k : Bool) <;> simp [List.find?, h, ih]

theorem get_obj (f : List (List Char × Json)) (k : List Char) :
    (Json.obj f).get k =
      match f.find? (fun kv => kv.1 = k) with
      | some kv => some kv.2
      | none => none := rfl

theorem contains_obj (f : List (List Char × Json)) (k : List Char) :
    (Json.obj f).contains k = (f.find? (fun kv => kv.1 = k)).isSome := by
  simp [Json.contains, any_eq_find?_isSome]

theorem get_isObj (doc : Json) (k : List Char) (j : Json) (h : doc.get k = some j) :
    doc.isObj = true := by
  cases doc
  case obj fields => rfl
  all_goals exact absurd h (by simp [Json.get])

theorem isObj_exists (doc : Json) (h : doc.isObj = true) :
    ∃ f, doc = Json.obj f := by
  cases doc
  case obj fields => exact ⟨fields, rfl⟩
  all_goals exact absurd h (by simp [Json.isObj])

theorem get_some_contains (doc : Json) (k : List Char) (j : Json)
    (h : doc.get k = some j) : doc.contains k = true := by
  obtain ⟨f, rfl⟩ := isObj_exists doc (get_isObj doc k j h)
  rw [contains_obj]
  cases hf : List.find? (fun kv => decide (kv.1 = k)) f with
  | none => rw [get_obj] at h; simp [hf] at h
  | some kv => simp [hf]

theorem get_setKey_same (f : List (List Char × Json)) (k : List Char) (v : Json) :
    ((Json.obj f).setKey k v).get k = some v := by
  simp [Json.setKey, get_obj, find?_setFields_same]

theorem get_setKey_ne (f : List (List Char × Json)) (k k' : List Char) (v : Json)
    (h : k' ≠ k) : ((Json.obj f).setKey k v).get k' = (Json.obj f).get k' := by
  simp [Json.setKey, get_obj, find?_setFields_ne k k' v f h]

theorem contains_setKey_same (f : List (List Char × Json)) (k : List Char) (v : Json) :
    ((Json.obj f).setKey k v).contains k = true := by
  simp [Json.setKey, contains_obj, find?_setFields_same]

theorem contains_setKey_ne (f : List (List Char × Json)) (k k' : List Char) (v : Json)
    (h : k' ≠ k) : ((Json.obj f).setKey k v).contains k' = (Json.obj f).contains k' := by
  simp [Json.setKey, contains_obj, find?_setFields_ne k k' v f h]

theorem isObj_setKey (f : List (List Char × Json)) (k : List Char) (v : Json) :
    ((Json.obj f).setKey k v).isObj = true := rfl

theorem docAgree_refl (base : Json) (h : base.isObj = true) : DocAgree base base :=
  ⟨h, fun _ _ _ => ⟨rfl, rfl⟩⟩

theorem docAgree_setKey (base d : Json) (k : List Char) (v : Json)
    (h : DocAgree base d) (hk : k = pSKey ∨ k = pSHKey) :
    DocAgree base (d.setKey k v) := by
  obtain ⟨f, rfl⟩ := isObj_exists d h.1
  refine ⟨isObj_setKey f k v, fun k' h1 h2 => ?_⟩
  have hne : k' ≠ k := by
    rcases hk with rfl | rfl
    · exact h1
    · exact h2
  rw [contains_setKey_ne f k k' v hne, get_setKey_ne f k k' v hne]
  exact h.2 k' h1 h2

theorem nestedStep_agree (base d : Json) (t : List Char)
    (hbase : base.isObj = true) (h : DocAgree base d)
    (h1 : t ≠ pSKey) (h2 : t ≠ pSHKey) :
    nestedStep d t = nestedStep base t := by
  obtain ⟨hobj, hk⟩ := h
  obtain ⟨hc, hg⟩ := hk t h1 h2
  rw [nestedStep, nestedStep, hobj, hbase, hc, hg]

theorem GetNestedSection_agree (base d : Json) (path : List Char)
    (t : List Char) (ts : List (List Char))
    (hsplit : splitGetline path '.' = t :: ts)
    (hbase : base.isObj = true) (h : DocAgree base d)
    (h1 : t ≠ pSKey) (h2 : t ≠ pSHKey) :
    GetNestedSection d path = GetNestedSection base path := by
  rw [GetNestedSection, GetNestedSection, hsplit, List.foldlM_cons, List.foldlM_cons,
    nestedStep_agree base d t hbase h h1 h2]

theorem set_append_len {α : Type} (A B : List α) (n : Nat) (v : α) (h : A.length = n) :
    (A ++ B).set n v = A ++ B.set 0 v := by
  subst h
  induction A with
  | nil => simp
  | cons a as ih => simp [List.set, ih]

theorem protectSectionsFrom_spec (sha256 : List Nat → List Nat) (password : List Char)
    (base : Json) (entries : List Json)
    (hgood : ∀ e ∈ entries, GoodEntry base e)
    (hbaseObj : base.isObj = true) :
    ∀ r i d, i + r = entries.length →
      DocAgree base d →
      d.get pSKey = some (Json.arr
        ((entries.take i).map (protectEntry sha256 password base) ++ entries.drop i)) →
      ∃ dF, protectSectionsFrom sha256 password d i r = Except.ok dF ∧
        DocAgree base dF ∧
        dF.get pSKey = some (Json.arr (entries.map (protectEntry sha256 password base))) := by
  intro r
  induction r with
  | zero =>
    intro i d hlen hagree hget
    refine ⟨d, rfl, hagree, ?_⟩
    have hieq : i = entries.length := by omega
    subst hieq
    simpa using hget
  | succ r ih =>
    intro i d hlen hagree hget
    have hi : i < entries.length := by omega
    obtain ⟨e, he⟩ : ∃ e, entries.get? i = some e := by
      rw [List.get?_eq_getElem?, List.getElem?_eq_getElem hi]
      exact ⟨entries[i], rfl⟩
    have hmem : e ∈ entries := List.get?_mem he
    obtain ⟨heobj, name, hname, ⟨t, ts, hsplit, ht1, ht2⟩, j, hnested⟩ := hgood e hmem
    have hlenTake0 : ((entries.take i).map (protectEntry sha256 password base)).length = i := by
      simp [List.length_take, Nat.min_eq_left (Nat.le_of_lt hi)]
    have hgetA : ((entries.take i).map (protectEntry sha256 password base) ++
        entries.drop i).get? i = some e := by
      rw [List.get?_append_right hlenTake0.le, hlenTake0, Nat.sub_self,
        List.get?_drop, Nat.add_zero]
      exact he
    have hcontains : e.contains sectionNameKey = true :=
      get_some_contains e sectionNameKey (Json.str name) hname
    have hnestedD : GetNestedSection d name = Except.ok j := by
      rw [GetNestedSection_agree base d name t ts hsplit hbaseObj hagree ht1 ht2]
      exact hnested
    have hsecname : entrySecName e = name := by
      rw [entrySecName, hname]
    have hsechash : sectionHashOf sha256 password base e =
        ComputeJsonHash sha256 j password := by
      rw [sectionHashOf, hsecname, hnested]
      rfl
    obtain ⟨f, hf⟩ := isObj_exists d hagree.1
    have hsetEq : ((entries.take i).map (protectEntry sha256 password base) ++
          entries.drop i).set i (protectEntry sha256 password base e) =
        (entries.take (i + 1)).map (protectEntry sha256 password base) ++
          entries.drop (i + 1) := by
      have heg : entries[i]? = some e := by
        rw [← List.get?_eq_getElem?]
        exact he
      have hieqE : entries[i] = e := by
        rw [List.getElem?_eq_getElem hi] at heg
        exact Option.some_inj.mp heg
      have hdrop : entries.drop i = e :: entries.drop (i + 1) := by
        rw [List.drop_eq_getElem_cons hi, hieqE]
      calc ((entries.take i).map (protectEntry sha256 password base) ++
            entries.drop i).set i (protectEntry sha256 password base e)
      _ = (entries.take i).map (protectEntry sha256 password base) ++
            (entries.drop i).set 0 (protectEntry sha256 password base e) := by
            rw [set_append_len _ _ i _ hlenTake0]
      _ = (entries.take i).map (protectEntry sha256 password base) ++
            (protectEntry sha256 password base e :: entries.drop (i + 1)) := by
            rw [hdrop]; rfl
      _ = (entries.take (i + 1)).map (protectEntry sha256 password base) ++
            entries.drop (i + 1) := by
            rw [List.take_succ, List.getElem?_eq_getElem hi, hieqE]
            simp
    have hstep : protectSectionsFrom sha256 password d i (r + 1) =
        protectSectionsFrom sha256 password
          (d.setKey pSKey (Json.arr
            ((entries.take (i + 1)).map (protectEntry sha256 password base) ++
              entries.drop (i + 1))))
          (i + 1) r := by
      rw [protectSectionsFrom, hget]
      simp only [hgetA, heobj, hcontains, Bool.and_self, if_true, hname, hnestedD]
      rw [← hsechash, ← protectEntry, hsetEq]
    rw [hstep]
    apply ih (i + 1)
    · omega
    · exact docAgree_setKey base d pSKey _ hagree (Or.inl rfl)
    · rw [hf]
      exact get_setKey_same f pSKey _

theorem ProtectJson_spec (sha256 : List Nat → List Nat) (password : List Char)
    (base : Json) (entries : List Json)
    (hbase : base.get pSKey = some (Json.arr entries))
    (hgood : ∀ e ∈ entries, GoodEntry base e) :
    ∃ docP, ProtectJson sha256 base password = Except.ok docP ∧
      DocAgree base docP ∧
      docP.get pSKey = some (Json.arr (entries.map (protectEntry sha256 password base))) ∧
      docP.get pSHKey = some (Json.str (ComputeJsonHash sha256
        (Json.arr (entries.map (protectEntry sha256 password base))) password)) := by
  have hbaseObj : base.isObj = true := get_isObj base pSKey _ hbase
  obtain ⟨dF, hrun, hagreeF, hgetF⟩ :=
    protectSectionsFrom_spec sha256 password base entries hgood hbaseObj
      entries.length 0 base (by omega) (docAgree_refl base hbaseObj) (by simpa using hbase)
  obtain ⟨fF, hfF⟩ := isObj_exists dF hagreeF.1
  refine ⟨dF.setKey pSHKey (Json.str (ComputeJsonHash sha256
    (Json.arr (entries.map (protectEntry sha256 password base))) password)),
    ?_, ?_, ?_, ?_⟩
  · simp only [ProtectJson, hbase, hrun, hgetF]
  · exact docAgree_setKey base dF pSHKey _ hagreeF (Or.inr rfl)
  · rw [hfF, get_setKey_ne fF pSHKey pSKey _ (by decide), ← hfF]
    exact hgetF
  · rw [hfF]
    exact get_setKey_same fF pSHKey _

theorem verifySections_protect (sha256 : List Nat → List Nat) (password : List Char)
    (base docP : Json)
    (hbaseObj : base.isObj = true)
    (hagree : DocAgree base docP) :
    ∀ (es : List Json), (∀ e ∈ es, GoodEntry base e) →
      verifySections sha256 password docP
        (es.map (protectEntry sha256 password base)) = Except.ok () := by
  intro es
  induction es with
  | nil => intro _; rfl
  | cons e rest ih =>
    intro hgood
    obtain ⟨heobj, name, hname, ⟨t, ts, hsplit, ht1, ht2⟩, j, hnested⟩ :=
      hgood e (List.mem_cons_self e rest)
    obtain ⟨fe, hfe⟩ := isObj_exists e heobj
    have hsecname : entrySecName e = name := by rw [entrySecName, hname]
    have hsechash : sectionHashOf sha256 password base e =
        ComputeJsonHash sha256 j password := by
      rw [sectionHashOf, hsecname, hnested]
      rfl
    have hobj2 : (protectEntry sha256 password base e).isObj = true := by
      rw [protectEntry, hfe]
      exact isObj_setKey fe _ _
    have hgetName : (protectEntry sha256 password base e).get sectionNameKey =
        some (Json.str name) := by
      rw [protectEntry, hfe, get_setKey_ne fe hashStoreKey sectionNameKey _ (by decide), ← hfe]
      exact hname
    have hcontName : (protectEntry sha256 password base e).contains sectionNameKey = true :=
      get_some_contains _ _ _ hgetName
    have hgetHash : (protectEntry sha256 password base e).get hashStoreKey =
        some (Json.str (sectionHashOf sha256 password base e)) := by
      rw [protectEntry, hfe]
      exact get_setKey_same fe _ _
    have hcontHash : (protectEntry sha256 password base e).contains hashStoreKey = true :=
      get_some_contains _ _ _ hgetHash
    have hnestedP : GetNestedSection docP name = Except.ok j := by
      rw [GetNestedSection_agree base docP name t ts hsplit hbaseObj hagree ht1 ht2]
      exact hnested
    rw [List.map_cons, verifySections]
    simp only [hobj2, hcontName, hcontHash, Bool.and_self, if_true, hgetName, hgetHash,
      hnestedP, hsechash, if_pos rfl]
    exact ih (fun e' he' => hgood e' (List.mem_cons_of_mem e he'))

/-- Round-trip success of `VerifyJsonProtection` after `ProtectJson`. -/
theorem VerifyJsonProtection_protect (sha256 : List Nat → List Nat) (password : List Char)
    (base : Json) (entries : List Json)
    (hbase : base.get pSKey = some (Json.arr entries))
    (hgood : ∀ e ∈ entries, GoodEntry base e) :
    ∃ docP, ProtectJson sha256 base password = Except.ok docP ∧
      VerifyJsonProtection sha256 docP password = Except.ok () := by
  have hbaseObj : base.isObj = true := get_isObj base pSKey _ hbase
  obtain ⟨docP, hok, hagree, hgetPS, hgetPSH⟩ :=
    ProtectJson_spec sha256 password base entries hbase hgood
  refine ⟨docP, hok, ?_⟩
  have hcont1 : docP.contains pSKey = true := get_some_contains _ _ _ hgetPS
  have hcont2 : docP.contains pSHKey = true := get_some_contains _ _ _ hgetPSH
  rw [VerifyJsonProtection]
  simp only [hcont1, hcont2, Bool.and_self, if_true, hgetPS, hgetPSH, if_pos rfl]
  exact verifySections_protect sha256 password base docP hbaseObj hagree entries hgood

/-- If the whole verification succeeds, every section's stored hash
matches the recomputed one. -/
theorem verifySections_sound (sha256 : List Nat → List Nat) (password : List Char)
    (d : Json) :
    ∀ (es : List Json), verifySections sha256 password d es = Except.ok () →
      ∀ e ∈ es, ∀ name h, e.get sectionNameKey = some (Json.str name) →
        e.get hashStoreKey = some (Json.str h) →
        ∃ sd, GetNestedSection d name = Except.ok sd ∧
          h = ComputeJsonHash sha256 sd password := by
  intro es
  induction es with
  | nil =>
    intro _ e he
    cases he
  | cons e0 rest ih =>
    intro hok e he name h hname hhash
    rw [verifySections] at hok
    split at hok
    · split at hok
      next name0 hash0 hget0 hgethash0 =>
        split at hok
        next sd hnested0 =>
          split at hok
          next heq =>
            rcases List.mem_cons.mp he with rfl | hmem
            · rw [hname] at hget0
              rw [hhash] at hgethash0
              obtain rfl : name0 = name := by
                cases hget0
                rfl
              obtain rfl : hash0 = h := by
                cases hgethash0
                rfl
              exact ⟨sd, hnested0, heq⟩
            · exact ih hok e hmem name h hname hhash
          next => cases hok
        next => cases hok
      next => cases hok
    · cases hok

/-- If the whole verification succeeds, the stored array-level hash
matches the recomputed one. -/
theorem VerifyJsonProtection_sound (sha256 : List Nat → List Nat) (password : List Char)
    (d : Json) (es : List Json) (s : List Char)
    (hps : d.get pSKey = some (Json.arr es))
    (hpsh : d.get pSHKey = some (Json.str s))
    (hok : VerifyJsonProtection sha256 d password = Except.ok ()) :
    s = ComputeJsonHash sha256 (Json.arr es) password ∧
    verifySections sha256 password d es = Except.ok () := by
  rw [VerifyJsonProtection,
    get_some_contains d pSKey _ hps, get_some_contains d pSHKey _ hpsh] at hok
  simp only [Bool.and_self, if_true, hps, hpsh] at hok
  split at hok
  next heq => exact ⟨heq, hok⟩
  next => cases hok

/-- Claim C3 (amended): for every document whose `protectedSections`
array is well-formed and whose `sectionName` paths are non-empty,
resolve, and start outside `protectedSections`/`protectedSectionsHash`,
`verify(protect(doc, p), p)` succeeds; and any change that makes the
stored array-level hash differ from the recomputed one, or some
section's stored hash differ from the hash of the (changed) section
data, makes `verify` fail. -/
theorem protect_verify_roundtrip_tamper (sha256 : List Nat → List Nat)
    (password : List Char) (base : Json) (entries : List Json)
    (hbase : base.get pSKey = some (Json.arr entries))
    (hgood : ∀ e ∈ entries, GoodEntry base e) :
    (∃ docP, ProtectJson sha256 base password = Except.ok docP ∧
       VerifyJsonProtection sha256 docP password = Except.ok ()) ∧
    (∀ (d : Json) (es : List Json) (s : List Char),
       d.get pSKey = some (Json.arr es) →
       d.get pSHKey = some (Json.str s) →
       s ≠ ComputeJsonHash sha256 (Json.arr es) password →
       VerifyJsonProtection sha256 d password ≠ Except.ok ()) ∧
    (∀ (d : Json) (es : List Json) (s : List Char) (e : Json) (name h : List Char),
       d.get pSKey = some (Json.arr es) →
       d.get pSHKey = some (Json.str s) →
       e ∈ es →
       e.get sectionNameKey = some (Json.str name) →
       e.get hashStoreKey = some (Json.str h) →
       (∀ sd, GetNestedSection d name = Except.ok sd →
          h ≠ ComputeJsonHash sha256 sd password) →
       VerifyJsonProtection sha256 d password ≠ Except.ok ()) := by
  refine ⟨VerifyJsonProtection_protect sha256 password base entries hbase hgood, ?_, ?_⟩
  · intro d es s hps hpsh hne hok
    exact hne (VerifyJsonProtection_sound sha256 password d es s hps hpsh hok).1
  · intro d es s e name h hps hpsh hmem hname hhash hne hok
    obtain ⟨_, hvs⟩ := VerifyJsonProtection_sound sha256 password d es s hps hpsh hok
    obtain ⟨sd, hnest, heq⟩ :=
      verifySections_sound sha256 password d es hvs e hmem name h hname hhash
    exact hne sd hnest heq

/-- Witness for C3 at a concrete well-formed document: protect then
verify succeeds. -/
theorem protect_verify_roundtrip_witness :
    ∃ docP, ProtectJson toySha256 wDoc "pw".toList = Except.ok docP ∧
      VerifyJsonProtection toySha256 docP "pw".toList = Except.ok () := by
  have h := protect_verify_roundtrip_tamper toySha256 "pw".toList wDoc [wEntry]
    (by rfl) ?_
  · exact h.1
  · intro e he
    rw [List.mem_singleton] at he
    subst he
    exact ⟨rfl, "cfg".toList, rfl,
      ⟨"cfg".toList, [], by decide, by decide, by decide⟩, wSection, rfl⟩

set_option maxRecDepth 10000 in
/-- Counterexample to C3 as stated: in `cexDoc` the single protected
section names `protectedSections` itself — a well-formed entry whose
path resolves — yet `verify(protect(doc, p), p)` fails, because protect
hashes the array before inserting the `hash` field while verify
recomputes over the updated array. -/
theorem protect_verify_roundtrip_counterexample :
    (GetNestedSection cexDoc pSKey).isOk = true ∧
    (ProtectJson toySha256 cexDoc "pw".toList).isOk = true ∧
    (match ProtectJson toySha256 cexDoc "pw".toList with
     | Except.ok d => VerifyJsonProtection toySha256 d "pw".toList
     | Except.error e => Except.error e).isOk = false := by
  decide

theorem strncmpEq_iff (secret : List Nat) (hnz : 0 ∉ secret) :
    ∀ payload : List Nat, payload.length = secret.length →
      (strncmpEq payload.length payload (secret ++ [0]) = true ↔ payload = secret) := by
  induction secret with
  | nil =>
    intro payload hlen
    rw [List.length_nil, List.length_eq_zero] at hlen
    subst hlen
    simp [strncmpEq]
  | cons s ss ih =>
    intro payload hlen
    have hs0 : s ≠ 0 := fun h => hnz (h ▸ List.mem_cons_self s ss)
    cases payload with
    | nil => simp at hlen
    | cons p ps =>
      simp only [List.length_cons] at hlen
      have hlen2 : ps.length = ss.length := by omega
      by_cases hps : p = s
      · subst hps
        have hstep : strncmpEq (ps.length + 1) (p :: ps) ((p :: ss) ++ [0]) =
            strncmpEq ps.length ps (ss ++ [0]) := by
          rw [strncmpEq]
          simp [hs0]
        rw [List.length_cons, hstep,
          ih (fun h => hnz (List.mem_cons_of_mem p h)) ps hlen2]
        simp
      · rw [List.length_cons, strncmpEq]
        simp [hps]

/-- One drain call can only leave the deadline alone or re-arm it to
`now + watchdogTimeout`; accepted pings never move it anywhere else. -/
theorem drainPings_cases (secret : List Nat) (wt now : Nat) :
    ∀ (payloads : List (List Nat)) (nextPing : Nat),
      drainPings secret wt now nextPing payloads = nextPing ∨
      drainPings secret wt now nextPing payloads = now + wt := by
  intro payloads
  induction payloads with
  | nil => intro nextPing; exact Or.inl rfl
  | cons p rest ih =>
    intro nextPing
    rw [drainPings]
    split
    · rcases ih (now + wt) with h | h
      · exact Or.inr h
      · exact Or.inr h
    · exact Or.inl rfl

/-- A drain whose first pending datagram is a valid ping re-arms the
deadline, however the rest of the queue looks. -/
theorem drainPings_head_valid (secret : List Nat) (wt now nextPing : Nat)
    (p : List Nat) (rest : List (List Nat))
    (hacc : ReceiveUdpPing secret p = PingResult.accepted) :
    drainPings secret wt now nextPing (p :: rest) = now + wt := by
  rw [drainPings, if_pos hacc]
  rcases drainPings_cases secret wt now rest (now + wt) with h | h
  · exact h
  · exact h

/-- Claim C2 (amended): a datagram is accepted exactly when its payload
is byte-for-byte the current secret (the supervisor's generated secrets
are NUL-free digit strings, which the `strncmp` comparison relies on);
every accepted ping re-arms `nextPing` to `now + watchdogTimeout`, and a
drain never moves the deadline anywhere else, so repeated valid
datagrams only re-arm it; but the drain loop stops at the first
non-matching datagram, so a drain re-arms exactly when its **first**
pending datagram is the secret — valid pings queued behind junk stay
unread (and unlogged) until a later poll iteration, and a drain that
starts with junk leaves `nextPing` unchanged; a non-matching non-empty
payload, once read, is logged as a warning whose text is the payload
truncated at its first NUL byte with the non-printable bytes before it
replaced by spaces. -/
theorem ReceiveUdpPing_spec (secret : List Nat) (hnz : 0 ∉ secret)
    (hne : secret ≠ []) (hlen : secret.length ≤ 1022) :
    (∀ payload, ReceiveUdpPing secret payload = PingResult.accepted ↔ payload = secret) ∧
    (∀ payload, payload ≠ secret → payload ≠ [] → payload.length ≤ 1022 →
      ReceiveUdpPing secret payload = PingResult.invalidData (sanitizePingData payload)) ∧
    (∀ wt now nextPing (rest : List (List Nat)),
      drainPings secret wt now nextPing (secret :: rest) = now + wt) ∧
    (∀ wt now nextPing (p : List Nat) (rest : List (List Nat)), p ≠ secret →
      drainPings secret wt now nextPing (p :: rest) = nextPing) ∧
    (∀ wt now nextPing (payloads : List (List Nat)),
      drainPings secret wt now nextPing payloads = nextPing ∨
      drainPings secret wt now nextPing payloads = now + wt) := by
  have hlenpos : 0 < secret.length := List.length_pos.mpr hne
  have hiff : ∀ payload, ReceiveUdpPing secret payload = PingResult.accepted ↔
      payload = secret := by
    intro payload
    constructor
    · intro hacc
      rw [ReceiveUdpPing] at hacc
      split at hacc
      · cases hacc
      · split at hacc
        · split at hacc
          next hcond =>
            simp only [Bool.and_eq_true, decide_eq_true_eq] at hcond
            obtain ⟨hl, hcmp⟩ := hcond
            exact (strncmpEq_iff secret hnz payload hl).mp hcmp
          next => cases hacc
        · cases hacc
    · intro hpay
      rw [hpay, ReceiveUdpPing, if_neg (by omega), if_pos (by omega)]
      rw [if_pos]
      rw [Bool.and_eq_true]
      refine ⟨by simp, (strncmpEq_iff secret hnz secret rfl).mpr rfl⟩
  refine ⟨hiff, ?_, ?_, ?_, ?_⟩
  · intro payload hneq hnil hple
    have hplen : 0 < payload.length := List.length_pos.mpr hnil
    rw [ReceiveUdpPing, if_neg (by omega), if_pos (by omega)]
    rw [if_neg]
    intro hcond
    simp only [Bool.and_eq_true, decide_eq_true_eq] at hcond
    obtain ⟨hl, hcmp⟩ := hcond
    exact hneq ((strncmpEq_iff secret hnz payload hl).mp hcmp)
  · intro wt now nextPing rest
    exact drainPings_head_valid secret wt now nextPing secret rest ((hiff secret).mpr rfl)
  · intro wt now nextPing p rest hpne
    rw [drainPings, if_neg (fun hacc => hpne ((hiff p).mp hacc))]
  · intro wt now nextPing payloads
    exact drainPings_cases secret wt now payloads nextPing

/-- Witness for C2 with the concrete secret `"42"`: a drain starting
with the secret re-arms the deadline even with junk behind it; a drain
starting with junk leaves the deadline unchanged. -/
theorem ReceiveUdpPing_spec_witness :
    ReceiveUdpPing [52, 50] [52, 50] = PingResult.accepted ∧
    drainPings [52, 50] 2000 100 50 [[52, 50], [9, 9], [52, 50]] = 2100 ∧
    drainPings [52, 50] 2000 100 50 [[9, 9], [52, 50]] = 50 := by
  have h := ReceiveUdpPing_spec [52, 50] (by decide) (by decide) (by decide)
  refine ⟨(h.1 [52, 50]).mpr rfl, ?_, ?_⟩
  · exact h.2.2.1 2000 100 50 [[9, 9], [52, 50]]
  · exact h.2.2.2.1 2000 100 50 [9, 9] [[52, 50]] (by decide)

/-- Counterexample to C2 as stated, on two counts: a non-matching payload
containing an interior NUL byte is logged truncated at the NUL, not with
every non-printable byte replaced by a space as the claim describes; and
a valid datagram pending behind junk does **not** advance `nextPing` in
that drain (the `while (ReceiveUdpPing())` loop exits at the junk), so a
window's valid datagrams do not all advance the deadline when they
arrive. -/
theorem ReceiveUdpPing_log_counterexample :
    ReceiveUdpPing [52, 50] [65, 0, 66] = PingResult.invalidData [65] ∧
    spacedPayload [65, 0, 66] = [65, 32, 66] ∧
    sanitizePingData [65, 0, 66] ≠ spacedPayload [65, 0, 66] ∧
    drainPings [52, 50] 2000 100 50 [[9, 9], [52, 50]] = 50 ∧
    [52, 50] ∈ [[9, 9], [52, 50]] ∧ (50 : Nat) ≠ 100 + 2000 := by
  decide

theorem runGenerations_no_genSecret (env : Option (List Char × Nat)) :
    ∀ g, (runGenerations env g).countP isGenSecretEvent = 0 := by
  intro g
  induction g with
  | zero => rfl
  | succ g ih => simp [runGenerations, List.countP_cons, isGenSecretEvent, ih]

theorem runGenerations_spawns (env : Option (List Char × Nat)) :
    ∀ g, ∀ ev ∈ runGenerations env g, isSpawnEvent ev = true →
      ev = RunEvent.spawnChild (env.map Prod.fst) (env.map Prod.snd) := by
  intro g
  induction g with
  | zero => intro ev hev; cases hev
  | succ g ih =>
    intro ev hev hspawn
    rcases List.mem_cons.mp hev with rfl | hmem
    · rfl
    · exact ih ev hmem hspawn

/-- Claim C1 (amended): within one invocation of `Run`, the watchdog
secret is generated exactly once — before the first child is spawned —
and every generation's child is spawned with that same secret and the
same UDP port; nothing regenerates the secret or rebinds the port
between generations. -/
theorem runTrace_secret_per_run (watchdogTimeout : Int) (randDraw steadyDraw port : Nat)
    (shutdownEventName : List Char) (generations : Nat)
    (hwt : watchdogTimeout > 0) :
    (runTrace watchdogTimeout true randDraw steadyDraw port
        shutdownEventName generations).countP isGenSecretEvent = 1 ∧
    (∀ ev ∈ runTrace watchdogTimeout true randDraw steadyDraw port
        shutdownEventName generations, isSpawnEvent ev = true →
      ev = RunEvent.spawnChild (some (watchdogSecretValue randDraw steadyDraw))
        (some port)) := by
  have henv : (if watchdogTimeout > 0 ∧ true = true then
      some (watchdogSecretValue randDraw steadyDraw, port) else none) =
      some (watchdogSecretValue randDraw steadyDraw, port) := by
    rw [if_pos ⟨hwt, rfl⟩]
  constructor
  · rw [runTrace]
    simp only [if_pos hwt, henv]
    simp [List.countP_append, List.countP_cons, isGenSecretEvent,
      runGenerations_no_genSecret]
  · intro ev hev hspawn
    rw [runTrace] at hev
    rcases List.mem_append.mp hev with hsetup | hrest
    · rcases List.mem_append.mp hsetup with hsetup2 | hshut
      · rw [if_pos hwt, if_pos rfl] at hsetup2
        simp only [List.mem_cons, List.not_mem_nil, or_false] at hsetup2
        rcases hsetup2 with rfl | rfl | rfl | rfl
        all_goals cases hspawn
      · rw [List.mem_singleton] at hshut
        rw [hshut] at hspawn
        cases hspawn
    · rw [henv] at hrest
      have hg := runGenerations_spawns
        (some (watchdogSecretValue randDraw steadyDraw, port)) generations ev hrest hspawn
      simpa using hg

/-- Witness for C1 (amended) at concrete parameters. -/
theorem runTrace_secret_per_run_witness :
    (runTrace 2000 true 42 1000 5555 "ev".toList 3).countP isGenSecretEvent = 1 :=
  (runTrace_secret_per_run 2000 42 1000 5555 "ev".toList 3 (by norm_num)).1

/-- Counterexample to C1 as stated: a run with two generations spawns two
children but generates no fresh secret between the two spawns — the
single `genSecret` precedes the loop, so both generations share the
secret and port. -/
theorem runTrace_fresh_secret_counterexample :
    (runTrace 2000 true 42 1000 5555 "ev".toList 2).countP isSpawnEvent = 2 ∧
    freshSecretBetweenSpawns (runTrace 2000 true 42 1000 5555 "ev".toList 2) = false := by
  decide

/-- Claim C5: with `maxOldFiles > 0`, after retention the rotation set of
the remaining listing has at most `maxOldFiles` files, exactly
`count − maxOldFiles` rotation files were deleted, every deleted file
was in the rotation set, and each deleted file precedes every surviving
rotation file in lexicographic (path) order. -/
theorem FlushFileQueueRetention_spec (listing : List DirEntry) (baseName ext : String)
    (maxOldFiles : Nat) (hmax : 0 < maxOldFiles) (hnd : listing.Nodup) :
    (rotationSet (FlushFileQueueRetention listing baseName ext maxOldFiles).2
        baseName ext).length ≤ maxOldFiles ∧
    (FlushFileQueueRetention listing baseName ext maxOldFiles).1.length =
      (rotationSet listing baseName ext).length - maxOldFiles ∧
    (∀ d ∈ (FlushFileQueueRetention listing baseName ext maxOldFiles).1,
      inRotationSet baseName ext d = true) ∧
    (∀ d ∈ (FlushFileQueueRetention listing baseName ext maxOldFiles).1,
      ∀ s ∈ rotationSet (FlushFileQueueRetention listing baseName ext maxOldFiles).2
        baseName ext, pathLe d s) := by
  rw [FlushFileQueueRetention, if_pos hmax]
  set rot := listing.filter (inRotationSet baseName ext) with hrot
  have hrotEq : rotationSet listing baseName ext = rot := by
    rw [rotationSet]
  by_cases hover : rot.length > maxOldFiles
  · rw [if_pos hover]
    set sorted := List.insertionSort pathLe rot with hsorted
    set k := rot.length - maxOldFiles with hk
    set deleted := sorted.take k with hdel
    have hperm : sorted.Perm rot := List.perm_insertionSort pathLe rot
    have hlensorted : sorted.length = rot.length := hperm.length_eq
    have hrotnd : rot.Nodup := List.Nodup.filter _ hnd
    have hsortednd : sorted.Nodup := hperm.symm.nodup_iff.mp hrotnd
    have hklen : k ≤ sorted.length := by omega
    have hdellen : deleted.length = k := by
      rw [hdel, List.length_take]
      omega
    have hsplit : sorted = deleted ++ sorted.drop k := by
      rw [hdel, List.take_append_drop]
    have hdisj : ∀ x ∈ deleted, x ∉ sorted.drop k := by
      have := hsplit ▸ hsortednd
      rw [List.nodup_append] at this
      exact fun x hx => this.2.2 hx
    have hdropnotdel : ∀ x ∈ sorted.drop k, x ∉ deleted := by
      intro x hx hxd
      exact hdisj x hxd hx
    have hremRot : rotationSet (listing.filter (fun e => e ∉ deleted)) baseName ext =
        (rot.filter (fun e => e ∉ deleted)) := by
      rw [rotationSet, List.filter_comm, hrot]
    have hremPerm : (rot.filter (fun e => e ∉ deleted)).Perm
        (sorted.filter (fun e => e ∉ deleted)) :=
      (hperm.filter _).symm
    have hfilterSorted : sorted.filter (fun e => e ∉ deleted) = sorted.drop k := by
      conv_lhs => rw [hsplit]
      rw [List.filter_append]
      have h1 : deleted.filter (fun e => e ∉ deleted) = [] := by
        rw [List.filter_eq_nil_iff]
        intro a ha
        simp [ha]
      have h2 : (sorted.drop k).filter (fun e => e ∉ deleted) = sorted.drop k := by
        rw [List.filter_eq_self]
        intro a ha
        simpa using hdropnotdel a ha
      rw [h1, h2, List.nil_append]
    have hremLen : (rotationSet (listing.filter (fun e => e ∉ deleted)) baseName ext).length =
        maxOldFiles := by
      rw [hremRot, hremPerm.length_eq, hfilterSorted, List.length_drop]
      omega
    have hsortedSorted : List.Sorted pathLe sorted := List.sorted_insertionSort pathLe rot
    have hconj2 : deleted.length = rot.length - maxOldFiles := by omega
    refine ⟨le_of_eq hremLen, by rw [hrotEq]; exact hconj2, ?_, ?_⟩
    · intro d hd
      have hdsorted : d ∈ sorted := List.mem_of_mem_take hd
      have hdrot : d ∈ rot := hperm.mem_iff.mp hdsorted
      exact List.of_mem_filter hdrot
    · intro d hd s hs
      rw [hremRot] at hs
      have hs2 : s ∈ sorted.drop k := by
        rw [← hfilterSorted]
        exact (hremPerm.mem_iff).mp hs
      have : List.Pairwise pathLe (deleted ++ sorted.drop k) := by
        rw [← hsplit]
        exact hsortedSorted
      exact (List.pairwise_append.mp this).2.2 d hd s hs2
  · rw [if_neg hover]
    refine ⟨?_, ?_, ?_, ?_⟩
    · rw [hrotEq]
      omega
    · simp only [List.length_nil]
      rw [hrotEq]
      omega
    · intro d hd
      cases hd
    · intro d hd
      cases hd

/-- Witness for C5 at a concrete directory listing: of four rotated logs
plus one unrelated file, the two lexicographically smallest rotated ones
are deleted and two survive. -/
theorem FlushFileQueueRetention_spec_witness :
    (rotationSet (FlushFileQueueRetention
        [⟨"log.20240101000000", ".txt", true⟩, ⟨"log.20240102000000", ".txt", true⟩,
         ⟨"log.20240103000000", ".txt", true⟩, ⟨"log.20240104000000", ".txt", true⟩,
         ⟨"other", ".dat", true⟩] "log" ".txt" 2).2 "log" ".txt").length ≤ 2 :=
  (FlushFileQueueRetention_spec
    [⟨"log.20240101000000", ".txt", true⟩, ⟨"log.20240102000000", ".txt", true⟩,
     ⟨"log.20240103000000", ".txt", true⟩, ⟨"log.20240104000000", ".txt", true⟩,
     ⟨"other", ".dat", true⟩] "log" ".txt" 2 (by norm_num) (by decide)).1

/-- Claim C6: with `mute = true` or `running = false`, `Log` has no
observable effect: the state (file queue, email queue, batch epoch —
everything) is returned unchanged and nothing is written to the
console. -/
theorem Log_suppressed (st : LoggerState) (now : Nat) (ts : Timestamp) (tid : Nat)
    (level : LogLevel) (message : List Char) (file fn : Option (List Char))
    (h : st.mute = true ∨ st.running = false) :
    Log st now ts tid level message file fn = (st, none) := by
  rcases h with h | h
  · rw [Log, if_pos (by simp [h])]
  · rw [Log, if_pos (by simp [h])]

/-- Witness for C6: a muted concrete logger swallows a Warning-level call. -/
theorem Log_suppressed_witness :
    Log ⟨true, true, false, LogLevel.Verbose, LogLevel.Verbose, LogLevel.MaskAllLogs,
        [], [], 0⟩ 5 ⟨2024, 1, 2, 3, 4, 5, 6⟩ 77 LogLevel.Warning "hello".toList
        none none =
      (⟨true, true, false, LogLevel.Verbose, LogLevel.Verbose, LogLevel.MaskAllLogs,
        [], [], 0⟩, none) :=
  Log_suppressed _ 5 _ 77 LogLevel.Warning "hello".toList none none (Or.inl rfl)

theorem foldl_ifQ (Q : Nat → Prop) [DecidablePred Q] :
    ∀ (l : List Nat) (init : Option Nat),
      (∀ p, init = some p → Q p) →
      ∀ p, l.foldl (fun acc x => if Q x then some x else acc) init = some p → Q p := by
  intro l
  induction l with
  | nil => intro init hinit p hp; exact hinit p hp
  | cons x rest ih =>
    intro init hinit p hp
    rw [List.foldl_cons] at hp
    refine ih _ ?_ p hp
    intro q hq
    split at hq
    · cases hq
      assumption
    · exact hinit q hq

theorem lastDotIdx_spec (name : List Char) (lo : Nat) (p : Nat)
    (h : lastDotIdx name lo = some p) :
    lo ≤ p ∧ p + 1 < name.length ∧ name.get? p = some '.' :=
  foldl_ifQ (fun p => lo ≤ p ∧ p + 1 < name.length ∧ name.get? p = some '.')
    (List.range name.length) none (fun q hq => by cases hq) p h

/-- Claim C7 (amended): when the logger is not suppressed and the level
clears the file threshold, the line pushed to the file queue is exactly
`timestamp [LVL] [tid: ]prefix message\n` with zero-padded timestamp
fields, `LVL` one of the seven three-letter tags, an eight-hex-digit
thread id present iff `logThreadId`, and — when file and function are
supplied — a location prefix that is the function signature itself
(`ClassName::Method`) when it contains `::`, else `FileStem.function`;
the console receives the identical string when the console threshold is
also cleared. -/
theorem Log_line_format (st : LoggerState) (now : Nat) (ts : Timestamp) (tid : Nat)
    (level : LogLevel) (message f fn : List Char)
    (hmute : st.mute = false) (hrun : st.running = true)
    (hfile : st.minFileLevel.toNat ≤ level.toNat) :
    (Log st now ts tid level message (some f) (some fn)).1.fileQueue =
      st.fileQueue ++
        [formatTimestamp ts ++ " [".toList ++ levelName level ++ "] ".toList ++
          (if st.logThreadId then hex8 tid ++ ": ".toList else []) ++
          GetLocationPrefix f fn ++ message ++ "\n".toList] ∧
    levelName level ∈ ["VRB".toList, "DBG".toList, "INF".toList, "WRN".toList,
      "ERR".toList, "FAT".toList, "UNK".toList] ∧
    (hex8 tid).length = 8 ∧
    (st.minConsoleLevel.toNat ≤ level.toNat →
      (Log st now ts tid level message (some f) (some fn)).2 =
        some (formatLogLine ts level st.logThreadId tid (GetLocationPrefix f fn) message)) ∧
    (containsSub "::".toList fn = true → GetLocationPrefix f fn = fn ++ ": ".toList) ∧
    (containsSub "::".toList fn = false →
      ∃ stem, GetLocationPrefix f fn = stem ++ ".".toList ++ fn ++ ": ".toList) := by
  have hnotlt : ¬ level.toNat < st.minFileLevel.toNat := Nat.not_lt.mpr hfile
  have hcond : (st.mute || !st.running ||
      (decide (level.toNat < st.minConsoleLevel.toNat) &&
       decide (level.toNat < st.minFileLevel.toNat) &&
       decide (level.toNat < st.minEmailLevel.toNat))) = false := by
    simp [hmute, hrun, hnotlt]
  refine ⟨?_, ?_, ?_, ?_, ?_, ?_⟩
  · rw [Log, if_neg (by simp [hcond])]
    simp only [locPrefixOf, formatLogLine, if_pos hfile]
    split <;> simp
  · cases level <;> simp [levelName]
  · simp [hex8]
  · intro hcons
    rw [Log, if_neg (by simp [hcond])]
    simp only [locPrefixOf, if_pos hcons]
  · intro hcc
    rw [GetLocationPrefix, if_pos hcc]
  · intro hcc
    rw [GetLocationPrefix, if_neg (by simpa using hcc)]
    cases hdot : lastDotIdx (afterLastSep f)
        (if (afterLastSep f).length < f.length then 0 else 1) with
    | none =>
      exact ⟨afterLastSep f, by simp [stemPrefix]⟩
    | some p =>
      obtain ⟨_, hplen, hpdot⟩ := lastDotIdx_spec _ _ p hdot
      refine ⟨(afterLastSep f).take p, ?_⟩
      simp only [stemPrefix]
      rw [List.take_succ]
      rw [List.get?_eq_getElem?] at hpdot
      rw [hpdot]
      simp

/-- Witness for C7: a concrete call produces exactly the documented
line. -/
theorem Log_line_format_witness :
    (Log wLogSt 0 ⟨2024, 1, 2, 3, 4, 5, 6⟩ 255 LogLevel.Information "hi".toList
        (some "C:\\src\\Foo.cpp".toList) (some "bar".toList)).1.fileQueue =
      ["2024-01-02 03:04:05.006 [INF] 000000ff: Foo.bar: hi\n".toList] := by
  have h := Log_line_format wLogSt 0 ⟨2024, 1, 2, 3, 4, 5, 6⟩ 255 LogLevel.Information
    "hi".toList "C:\\src\\Foo.cpp".toList "bar".toList rfl rfl (by decide)
  rw [h.1]
  decide

/-- Counterexample to C7 as stated: for a function signature containing
`::` the emitted prefix is the signature itself (`Bar::Baz`), not
`ClassName.Method` with a dot (`Bar.Baz`) as the claim words it. -/
theorem Log_location_counterexample :
    GetLocationPrefix "C:\\proj\\Foo.cpp".toList "Bar::Baz".toList = "Bar::Baz: ".toList ∧
    "Bar::Baz: ".toList ≠ "Bar.Baz: ".toList := by
  decide

/-- Claim C8 is about intent the code does not implement: destroying a
`LoggerStream` after `Logger::SetInstance(nullptr)` does not swallow the
error — the destructor calls `Log` through the null instance pointer
(undefined behaviour), modelled here as the fault value. -/
theorem LoggerStreamDestructor_null_fault :
    LoggerStreamDestructor none 0 ⟨2024, 1, 1, 0, 0, 0, 0⟩ 0 LogLevel.Debug []
      none none = Except.error () := rfl

end SWD

